import Mathlib

/-!
Shallow embedding of `forework/basetask.py`: the task contract/lifecycle
(`BaseTask`) and the registry (`find_tasks`, `find_tasks_by_filetype`),
together with theorems settling the specification claims about them.

Python dynamic values are modelled by `Value`, Python exceptions by
`PyError`; fallible operations return `Except PyError _`. The module-level
global `_tasks_cache` is passed explicitly as a piece of state: each
registry operation receives the current cache value and returns the cache
value after the call (the source never rebinds the module global - it has
no `global _tasks_cache` statement and no assignment to it - so the
returned cache always equals the received one).
-/

/-- Python exceptions raised (or raisable) by the embedded code. -/
inductive PyError where
  | attributeError (attr : String)
  | assertionError (msg : String)
  | keyError (key : String)
  | indexError
  | typeError (msg : String)
  | notImplementedError (msg : String)
  | exception (msg : String)
deriving DecidableEq, Repr

/-- Python values as they flow through basetask.py: None, bool, int, str,
list, dict (string keys, as produced by `to_dict`). -/
inductive Value where
  | null
  | bool (b : Bool)
  | int (n : Int)
  | str (s : String)
  | list (xs : List Value)
  | dict (kvs : List (String × Value))

/-- Hex digit (lowercase) for the \uXXXX escapes of json.dumps. -/
def hexDigit (n : Nat) : Char :=
  if n < 10 then Char.ofNat (48 + n) else Char.ofNat (87 + n)

/-- Four-digit lowercase hex, as in Python json.dumps \uXXXX escapes. -/
def hex4 (n : Nat) : String :=
  String.mk [hexDigit (n / 4096 % 16), hexDigit (n / 256 % 16),
             hexDigit (n / 16 % 16), hexDigit (n % 16)]

/-- Escape of one character inside a JSON string literal, following
json.dumps defaults (ensure_ascii=True). -/
def escChar (c : Char) : String :=
  if c = '"' then "\\\""
  else if c = '\\' then "\\\\"
  else if c = '\n' then "\\n"
  else if c = '\r' then "\\r"
  else if c = '\t' then "\\t"
  else if c = Char.ofNat 8 then "\\b"
  else if c = Char.ofNat 12 then "\\f"
  else if c.toNat < 32 then "\\u" ++ hex4 c.toNat
  else if c.toNat < 127 then String.singleton c
  else if c.toNat < 65536 then "\\u" ++ hex4 c.toNat
  else
    let n := c.toNat - 65536
    "\\u" ++ hex4 (55296 + n / 1024) ++ "\\u" ++ hex4 (56320 + n % 1024)

/-- JSON string literal for `s`, as json.dumps renders a Python str. -/
def jsonQuote (s : String) : String :=
  "\"" ++ String.join (s.toList.map escChar) ++ "\""

mutual
/-- Embedding of Python `json.dumps` with its default separators. -/
def dumps : Value → String
  | .null => "null"
  | .bool true => "true"
  | .bool false => "false"
  | .int n => toString n
  | .str s => jsonQuote s
  | .list xs => "[" ++ dumpsList xs ++ "]"
  | .dict kvs => "\x7b" ++ dumpsPairs kvs ++ "\x7d"

/-- Comma-separated rendering of the elements of a JSON array. -/
def dumpsList : List Value → String
  | [] => ""
  | [x] => dumps x
  | x :: y :: rest => dumps x ++ ", " ++ dumpsList (y :: rest)

/-- Comma-separated rendering of the entries of a JSON object. -/
def dumpsPairs : List (String × Value) → String
  | [] => ""
  | [(k, v)] => jsonQuote k ++ ": " ++ dumps v
  | (k, v) :: p :: rest => jsonQuote k ++ ": " ++ dumps v ++ ", " ++ dumpsPairs (p :: rest)
end

mutual
/-- Embedding of Python `repr` for the values that can reach the assert
message in `find_tasks` (the `{t!r}` format). -/
def pyRepr : Value → String
  | .null => "None"
  | .bool true => "True"
  | .bool false => "False"
  | .int n => toString n
  | .str s => "\x27" ++ s ++ "\x27"
  | .list xs => "[" ++ pyReprList xs ++ "]"
  | .dict kvs => "\x7b" ++ pyReprPairs kvs ++ "\x7d"

/-- Comma-separated reprs of list elements. -/
def pyReprList : List Value → String
  | [] => ""
  | [x] => pyRepr x
  | x :: y :: rest => pyRepr x ++ ", " ++ pyReprList (y :: rest)

/-- Comma-separated reprs of dict entries. -/
def pyReprPairs : List (String × Value) → String
  | [] => ""
  | [(k, v)] => "\x27" ++ k ++ "\x27: " ++ pyRepr v
  | (k, v) :: p :: rest => "\x27" ++ k ++ "\x27: " ++ pyRepr v ++ ", " ++ pyReprPairs (p :: rest)
end

/-- Lookup in a Python dict represented as an association list (keys are
unique in every dict the source builds). -/
def dictLookup : List (String × Value) → String → Option Value
  | [], _ => none
  | (k, v) :: rest, key => if k = key then some v else dictLookup rest key

/-- Embedding of `d[k]` on a Python value. -/
def getItem (d : Value) (k : String) : Except PyError Value :=
  match d with
  | .dict kvs =>
    match dictLookup kvs k with
    | some v => .ok v
    | none => .error (.keyError k)
  | _ => .error (.typeError "object is not subscriptable")

/-- Embedding of `d.get(k, default)` on a Python dict value. -/
def getDefault (d : Value) (k : String) (dflt : Value) : Value :=
  match d with
  | .dict kvs =>
    match dictLookup kvs k with
    | some v => v
    | none => dflt
  | _ => dflt

/-- Abstract syntax of the regular expressions used as MAGIC_PATTERN
values: literal character runs, `.`, `*`, concatenation, and the `^` / `$`
anchors. `re.compile` maps a pattern string into this syntax; e.g.
"image/.*" is `cat (lit "image/") (star dot)` and "^image/jpeg$" is
`cat bol (cat (lit "image/jpeg") eol)`. -/
inductive Regex where
  | eps
  | lit (w : List Char)
  | dot
  | bol
  | eol
  | cat (a b : Regex)
  | star (a : Regex)
deriving DecidableEq, Repr

/-- Iterated application of one star step. `f j` gives the positions
reachable by one match of the starred body from position `j`; only strictly
advancing steps are followed (a Kleene iteration that consumes nothing adds
no new end position), so `fuel = length + 1` exhausts all end positions. -/
def starStep (f : Nat → List Nat) : Nat → Nat → List Nat
  | 0, i => [i]
  | k + 1, i => i :: (((f i).filter (fun j => i < j)).map (starStep f k)).flatten

/-- End positions of a match of `r` starting at position `i` of string `s`
(Python re default-flag semantics: `lit` consumes its characters, `dot`
consumes one character other than a newline, `bol` is a zero-width anchor
at the start, `eol` a zero-width anchor at the end of the string or just
before a newline that ends the string, `star` is Kleene iteration).
`re.match` succeeds iff some end position is reachable from position 0. -/
def positions : Regex → List Char → Nat → List Nat
  | .eps, _, i => [i]
  | .lit w, s, i => if (s.drop i).take w.length = w then [i + w.length] else []
  | .dot, s, i => if i < s.length ∧ s.getD i '\n' ≠ '\n' then [i + 1] else []
  | .bol, _, i => if i = 0 then [0] else []
  | .eol, s, i =>
    if i = s.length ∨ (i + 1 = s.length ∧ s.getD i '\n' = '\n') then [i] else []
  | .cat a b, s, i => ((positions a s i).map (fun j => positions b s j)).flatten
  | .star a, s, i => starStep (fun j => positions a s j) (s.length + 1) i

/-- Truthiness of `re.match(pattern, string)`: a (possibly zero-width)
match anchored at the start of the string. -/
def reMatch (p : Regex) (s : List Char) : Bool :=
  !(positions p s 0).isEmpty

/-- A Python class object as the registry sees it: its `__name__`, its
`MAGIC_PATTERN` class attribute, and whether it passes the scan filter
`type(cls) == type and cls != BaseTask and issubclass(cls, BaseTask)`. -/
structure TaskClass where
  name : String
  magicPattern : Option Regex
  isTask : Bool
deriving DecidableEq, Repr

/-- Embedding of the classmethod `BaseTask.can_handle`. When
`MAGIC_PATTERN` is None the source tries to raise
`Exception('MAGIC_PATTERN must be defined by the task {name}')`, but
formatting the message reads `self._name` - and in a classmethod `self`
is the class object, which has no `_name` attribute (`_name` is set only
on instances, in `__init__`) - so the attribute lookup raises
AttributeError before the intended Exception is constructed. The `_rx`
memoisation is a pure caching of `re.compile` and is elided. -/
def can_handle (cls : TaskClass) (magic_string : String) : Except PyError Bool :=
  match cls.magicPattern with
  | none => .error (.attributeError "_name")
  | some p => .ok (reMatch p magic_string.toList)

/-- State of a `BaseTask` instance: the fields set by `__init__` and
mutated by the methods. `_result` is `Value.null` for Python None. -/
structure BaseTask where
  _name : String
  _path : Value
  _done : Bool
  _result : Value
  _priority : Value
  _next_tasks : List Value

/-- PRIO_NORMAL, the default priority. -/
def PRIO_NORMAL : Value := Value.int 0

/-- PRIO_LOW. -/
def PRIO_LOW : Value := Value.int (-10)

/-- PRIO_HIGH. -/
def PRIO_HIGH : Value := Value.int 10

/-- Embedding of `BaseTask.__init__` for the class named `clsName`:
`_name` is the class name, `_done = False`, `_result = None`,
`_next_tasks = []`. -/
def BaseTask.init (clsName : String) (path : Value) (priority : Value) : BaseTask :=
  ⟨clsName, path, false, Value.null, priority, []⟩

/-- Embedding of `BaseTask.get_result`: the result if done, else None
(with a logged warning, which has no observable value). -/
def get_result (t : BaseTask) : Value :=
  if t._done then t._result else Value.null

/-- Embedding of `BaseTask.get_next_tasks`:
`[json.dumps(t) for t in self._next_tasks]`. -/
def get_next_tasks (t : BaseTask) : List String :=
  t._next_tasks.map dumps

/-- Embedding of `BaseTask.add_next_task`: append `jsondata` to
`_next_tasks`. -/
def add_next_task (t : BaseTask) (jsondata : Value) : BaseTask :=
  ⟨t._name, t._path, t._done, t._result, t._priority, t._next_tasks ++ [jsondata]⟩

/-- Embedding of `BaseTask.to_dict`. -/
def to_dict (t : BaseTask) : Value :=
  .dict [("name", .str t._name),
         ("path", t._path),
         ("completed", .bool t._done),
         ("priority", t._priority),
         ("result", get_result t),
         ("next_tasks", .list ((get_next_tasks t).map Value.str))]

/-- Embedding of `BaseTask.to_json`: `json.dumps(self.to_dict())`. -/
def to_json (t : BaseTask) : String :=
  dumps (to_dict t)

/-- Embedding of the `done` property setter: assigning a non-bool raises
`Exception('Value for {cls}.done must be a boolean')` (the class name of
an instance equals its `_name`). -/
def done_setter (t : BaseTask) (v : Value) : Except PyError BaseTask :=
  match v with
  | .bool b => .ok ⟨t._name, t._path, b, t._result, t._priority, t._next_tasks⟩
  | _ => .error (.exception ("Value for " ++ t._name ++ ".done must be a boolean"))

/-- Direct assignment `task._result = value` (no property, no check). -/
def set_result (t : BaseTask) (v : Value) : BaseTask :=
  ⟨t._name, t._path, t._done, v, t._priority, t._next_tasks⟩

/-- Direct assignment `self._done = value` inside `start`. -/
def set_done (t : BaseTask) (b : Bool) : BaseTask :=
  ⟨t._name, t._path, b, t._result, t._priority, t._next_tasks⟩

/-- A run method: from the instance state it either returns normally with
the mutated state (its Python return value is discarded by `start`), or
raises, leaving the state as mutated up to the raise. -/
def RunMethod : Type := BaseTask → Except (PyError × BaseTask) BaseTask

/-- Embedding of `BaseTask.run`, the virtual method of the base class: it
logs and raises NotImplementedError without touching the state. -/
def BaseTask.run : RunMethod := fun t =>
  .error (.notImplementedError
    ("Attempted to call virtual method `run`, this method must be " ++
     "overridden"), t)

/-- Embedding of `BaseTask.start` with the concrete type's run method as a
parameter: set `_done = False`, call `run`, set `_done = True`, return
self; an exception from `run` propagates and skips the `_done = True`. -/
def start (run : RunMethod) (t : BaseTask) : Except (PyError × BaseTask) BaseTask :=
  match run (set_done t false) with
  | .ok t1 => .ok (set_done t1 true)
  | .error e => .error e

/-- Does a class binding survive the name filter of the discovery scan:
`if classname == name or name is None` (a Python `str` compares equal to a
non-str value as False). -/
def nameMatches (classname : String) : Option Value → Bool
  | none => true
  | some (.str s) => classname == s
  | some _ => false

/-- The class collection performed by the scan loop of `find_tasks`: keep
the bindings that pass the name filter and the
`type(cls) == type and cls != BaseTask and issubclass(cls, BaseTask)`
filter, in enumeration order. `reg` is the universe of bindings that the
walk over `forework.tasks` submodules enumerates. -/
def scan_tasks (reg : List TaskClass) (name : Option Value) : List TaskClass :=
  reg.filter (fun c => nameMatches c.name name && c.isTask)

/-- Scan branch of `find_tasks`: collect, then
`assert len(tasks) in (0, 1)` when a name was given, then return the
collected list. The cache global is returned unchanged: the source has no
assignment to `_tasks_cache`. -/
def find_tasks_scan (reg : List TaskClass) (name : Option Value)
    (cache : Option (List TaskClass)) :
    Except PyError (List TaskClass × Option (List TaskClass)) :=
  let tasks := scan_tasks reg name
  match name with
  | none => .ok (tasks, cache)
  | some v =>
    if tasks.length ≤ 1 then .ok (tasks, cache)
    else .error (.assertionError ("Found more than one task named " ++ pyRepr v))

/-- Embedding of `find_tasks(name, rebuild_cache)`. `cfg` is
`config.ENABLE_TASKS_CACHE`; `cache` is the module global `_tasks_cache`
on entry; the second component of the result is that global on exit. -/
def find_tasks (cfg : Bool) (reg : List TaskClass) (name : Option Value)
    (rebuild_cache : Bool) (cache : Option (List TaskClass)) :
    Except PyError (List TaskClass × Option (List TaskClass)) :=
  if cfg && !rebuild_cache then
    match cache with
    | some c => .ok (c, cache)
    | none => find_tasks_scan reg name cache
  else find_tasks_scan reg name cache

/-- Loop body of `find_tasks_by_filetype`: walk the discovered classes,
asking each `can_handle(filetype)` (which may raise); on a truthy match
return `task.__name__` at once when `first_only`, else accumulate it. The
Python function returns either a single str or a list of str. -/
def find_by_capability_loop (filetype : String) (first_only : Bool) :
    List TaskClass → List String → Except PyError (Sum String (List String))
  | [], acc => .ok (.inr acc)
  | task :: rest, acc =>
    match can_handle task filetype with
    | .error e => .error e
    | .ok true =>
      if first_only then .ok (.inl task.name)
      else find_by_capability_loop filetype first_only rest (acc ++ [task.name])
    | .ok false => find_by_capability_loop filetype first_only rest acc

/-- Embedding of `find_tasks_by_filetype(filetype, first_only)`: discover
with no name filter, then scan the result for capability matches. -/
def find_tasks_by_filetype (cfg : Bool) (reg : List TaskClass)
    (cache : Option (List TaskClass)) (filetype : String) (first_only : Bool) :
    Except PyError (Sum String (List String)) :=
  match find_tasks cfg reg none false cache with
  | .error e => .error e
  | .ok (all_tasks, _) => find_by_capability_loop filetype first_only all_tasks []

/-- Embedding of `BaseTask.from_dict(taskdict)`: look the class up by
`taskdict['name']` through `find_tasks` (index [0] raises IndexError when
nothing was found), construct `cls(path, *args, priority=...)` (a
non-empty `args` list would collide with the `priority` keyword on
`BaseTask.__init__`), then force the completion flag through the `done`
setter and assign `_result` directly. `next_tasks` is never read. -/
def from_dict (cfg : Bool) (reg : List TaskClass)
    (cache : Option (List TaskClass)) (taskdict : Value) :
    Except PyError BaseTask :=
  match getItem taskdict "name" with
  | .error e => .error e
  | .ok nameVal =>
    match find_tasks cfg reg (some nameVal) false cache with
    | .error e => .error e
    | .ok (tasks, _) =>
      match tasks with
      | [] => .error .indexError
      | cls :: _ =>
        match getItem taskdict "path" with
        | .error e => .error e
        | .ok pathVal =>
          match getDefault taskdict "args" (Value.list []) with
          | Value.list [] =>
            let task := BaseTask.init cls.name pathVal
              (getDefault taskdict "priority" PRIO_NORMAL)
            match done_setter task (getDefault taskdict "completed" (Value.bool false)) with
            | .error e => .error e
            | .ok task1 => .ok (set_result task1 (getDefault taskdict "result" Value.null))
          | _ => .error (.typeError "got multiple values for argument priority")

/-- Patterns that contain no `^` / `$` anchor; for these, matching reads
only the consumed span of the subject string. -/
def anchorFree : Regex → Bool
  | .eps => true
  | .lit _ => true
  | .dot => true
  | .bol => false
  | .eol => false
  | .cat a b => anchorFree a && anchorFree b
  | .star a => anchorFree a

/-- Whether `p` matches the whole of `t` (an exact, full-string match). -/
def fullMatch (p : Regex) (t : List Char) : Bool :=
  decide (t.length ∈ positions p t 0)

/-- Star iteration always reaches its start position. -/
theorem starStep_self (f : Nat → List Nat) (k i : Nat) : i ∈ starStep f k i := by
  cases k <;> simp [starStep]

/-- Reachability by finitely many strictly advancing steps of `f`: the
fuel-free meaning of `starStep`. -/
inductive StarReach (f : Nat → List Nat) : Nat → Nat → Prop where
  | refl (i : Nat) : StarReach f i i
  | step {i x j : Nat} : i < x → x ∈ f i → StarReach f x j → StarReach f i j

/-- Reachability only moves forward. -/
theorem StarReach.le {f : Nat → List Nat} {i j : Nat} (h : StarReach f i j) : i ≤ j := by
  induction h with
  | refl => exact Nat.le_refl _
  | step hlt _ _ ih => omega

/-- Fuel-based star membership implies reachability. -/
theorem starReach_of_mem_starStep {f : Nat → List Nat} {k : Nat} :
    ∀ {i j : Nat}, j ∈ starStep f k i → StarReach f i j := by
  induction k with
  | zero =>
    intro i j h
    simp [starStep] at h
    subst h
    exact .refl _
  | succ k ih =>
    intro i j h
    simp [starStep] at h
    rcases h with rfl | ⟨x, ⟨hx, hlt⟩, hj⟩
    · exact .refl _
    · exact .step hlt hx (ih hj)

/-- Reachability implies fuel-based star membership once the fuel covers
the distance (steps strictly advance, so `j - i` steps suffice). -/
theorem mem_starStep_of_reach {f : Nat → List Nat} {i j : Nat}
    (h : StarReach f i j) : ∀ k, j - i ≤ k → j ∈ starStep f k i := by
  induction h with
  | refl i => intro k _; exact starStep_self f k i
  | @step i x j hlt hx hr ih =>
    intro k hk
    have hxj : x ≤ j := hr.le
    match k with
    | 0 => omega
    | k' + 1 =>
      simp [starStep]
      exact Or.inr ⟨x, ⟨hx, hlt⟩, ih k' (by omega)⟩

/-- Reachability stays under a bound preserved by single steps. -/
theorem starReach_bound {f : Nat → List Nat} {n i j : Nat}
    (hf : ∀ x y, x ≤ n → y ∈ f x → y ≤ n) (h : StarReach f i j) : i ≤ n → j ≤ n := by
  induction h with
  | refl => exact id
  | @step i x j _ hx _ ih => intro hi; exact ih (hf i x hi hx)

/-- Reachability transfers between step functions that agree below a
bound dominating the end position. -/
theorem starReach_congr {f g : Nat → List Nat} {n i j : Nat}
    (hfg : ∀ x y, x ≤ n → y ≤ n → (y ∈ f x ↔ y ∈ g x))
    (h : StarReach f i j) : j ≤ n → StarReach g i j := by
  induction h with
  | refl => intro _; exact .refl _
  | @step i x j hlt hx hr ih =>
    intro hj
    have hxj : x ≤ j := hr.le
    exact .step hlt ((hfg i x (by omega) (by omega)).mp hx) (ih hj)

/-- End positions lie between the start position and the string length. -/
theorem mem_positions_bound {p : Regex} {s : List Char} :
    ∀ {i j : Nat}, i ≤ s.length → j ∈ positions p s i → i ≤ j ∧ j ≤ s.length := by
  induction p with
  | eps => intro i j hi hj; simp [positions] at hj; omega
  | lit w =>
    intro i j hi hj
    simp only [positions] at hj
    by_cases hc : (s.drop i).take w.length = w
    · rw [if_pos hc] at hj
      simp at hj
      have hlen := congrArg List.length hc
      simp at hlen
      omega
    · rw [if_neg hc] at hj
      simp at hj
  | dot =>
    intro i j hi hj
    simp only [positions] at hj
    by_cases hc : i < s.length ∧ s.getD i '\n' ≠ '\n'
    · rw [if_pos hc] at hj
      simp at hj
      obtain ⟨hlt, -⟩ := hc
      omega
    · rw [if_neg hc] at hj
      simp at hj
  | bol => intro i j hi hj; simp [positions] at hj; omega
  | eol =>
    intro i j hi hj
    simp only [positions] at hj
    by_cases hc : i = s.length ∨ (i + 1 = s.length ∧ s.getD i '\n' = '\n')
    · rw [if_pos hc] at hj
      simp at hj
      subst hj
      rcases hc with h | ⟨h, -⟩ <;> omega
    · rw [if_neg hc] at hj
      simp at hj
  | cat a b iha ihb =>
    intro i j hi hj
    simp [positions] at hj
    obtain ⟨k, hk, hjk⟩ := hj
    have h1 := iha hi hk
    have h2 := ihb h1.2 hjk
    omega
  | star a iha =>
    intro i j hi hj
    simp only [positions] at hj
    have hr := starReach_of_mem_starStep hj
    refine ⟨hr.le, ?_⟩
    exact starReach_bound (fun x y hx hy => (iha hx hy).2) hr hi

/-- For anchor-free patterns, membership of an end position within the
first part of an appended string does not depend on the appended tail:
the match reads only the consumed span. -/
theorem mem_positions_append {s t : List Char} :
    ∀ {p : Regex}, anchorFree p = true →
    ∀ {i j : Nat}, i ≤ s.length → j ≤ s.length →
      (j ∈ positions p s i ↔ j ∈ positions p (s ++ t) i) := by
  intro p
  induction p with
  | eps => intro _ i j _ _; simp [positions]
  | lit w =>
    intro _ i j hi hj
    simp only [positions]
    have hdrop : (s ++ t).drop i = s.drop i ++ t := by
      rw [List.drop_append_eq_append_drop, Nat.sub_eq_zero_of_le hi, List.drop_zero]
    constructor
    · intro hmem
      by_cases hc : (s.drop i).take w.length = w
      · rw [if_pos hc] at hmem
        simp at hmem
        have hlen := congrArg List.length hc
        simp at hlen
        have hwl : w.length ≤ (s.drop i).length := by simp; omega
        have hc2 : ((s ++ t).drop i).take w.length = w := by
          rw [hdrop, List.take_append_eq_append_take, Nat.sub_eq_zero_of_le hwl,
            List.take_zero, List.append_nil, hc]
        rw [if_pos hc2]
        simp [hmem]
      · rw [if_neg hc] at hmem
        simp at hmem
    · intro hmem
      by_cases hc2 : ((s ++ t).drop i).take w.length = w
      · rw [if_pos hc2] at hmem
        simp at hmem
        have hwl : w.length ≤ (s.drop i).length := by simp; omega
        have hc : (s.drop i).take w.length = w := by
          rw [hdrop, List.take_append_eq_append_take, Nat.sub_eq_zero_of_le hwl,
            List.take_zero, List.append_nil] at hc2
          exact hc2
        rw [if_pos hc]
        simp [hmem]
      · rw [if_neg hc2] at hmem
        simp at hmem
  | dot =>
    intro _ i j hi hj
    simp only [positions]
    constructor
    · intro hmem
      by_cases hc : i < s.length ∧ s.getD i '\n' ≠ '\n'
      · rw [if_pos hc] at hmem
        have hc2 : i < (s ++ t).length ∧ (s ++ t).getD i '\n' ≠ '\n' := by
          refine ⟨by simp; omega, ?_⟩
          rw [List.getD_append s t '\n' i hc.1]
          exact hc.2
        rw [if_pos hc2]
        exact hmem
      · rw [if_neg hc] at hmem
        simp at hmem
    · intro hmem
      by_cases hc2 : i < (s ++ t).length ∧ (s ++ t).getD i '\n' ≠ '\n'
      · rw [if_pos hc2] at hmem
        simp at hmem
        have his : i < s.length := by omega
        have hc : i < s.length ∧ s.getD i '\n' ≠ '\n' := by
          refine ⟨his, ?_⟩
          rw [← List.getD_append s t '\n' i his]
          exact hc2.2
        rw [if_pos hc]
        simp [hmem]
      · rw [if_neg hc2] at hmem
        simp at hmem
  | bol => intro haf; simp [anchorFree] at haf
  | eol => intro haf; simp [anchorFree] at haf
  | cat a b iha ihb =>
    intro haf i j hi hj
    simp only [anchorFree, Bool.and_eq_true] at haf
    simp only [positions, List.mem_flatten, List.mem_map]
    constructor
    · rintro ⟨l, ⟨k, hk, rfl⟩, hjl⟩
      have hbk := mem_positions_bound hi hk
      have hbj := mem_positions_bound hbk.2 hjl
      exact ⟨positions b (s ++ t) k,
        ⟨k, (iha haf.1 hi hbk.2).mp hk, rfl⟩, (ihb haf.2 hbk.2 hj).mp hjl⟩
    · rintro ⟨l, ⟨k, hk, rfl⟩, hjl⟩
      have hik : i ≤ (s ++ t).length := by simp; omega
      have hbk := mem_positions_bound hik hk
      have hbj := mem_positions_bound hbk.2 hjl
      have hks : k ≤ s.length := by omega
      exact ⟨positions b s k,
        ⟨k, (iha haf.1 hi hks).mpr hk, rfl⟩, (ihb haf.2 hks hj).mpr hjl⟩
  | star a iha =>
    intro haf i j hi hj
    simp only [anchorFree] at haf
    simp only [positions]
    have hfg : ∀ x y, x ≤ s.length → y ≤ s.length →
        (y ∈ positions a s x ↔ y ∈ positions a (s ++ t) x) :=
      fun x y hx hy => iha haf hx hy
    constructor
    · intro hmem
      have hr := starReach_of_mem_starStep hmem
      have hr2 := starReach_congr hfg hr hj
      exact mem_starStep_of_reach hr2 _ (by simp; omega)
    · intro hmem
      have hr := starReach_of_mem_starStep hmem
      have hr2 := starReach_congr (fun x y hx hy => (hfg x y hx hy).symm) hr hj
      exact mem_starStep_of_reach hr2 _ (by omega)

/-- The take of length `w.length` equals `w` exactly when `w` is a
prefix. -/
theorem take_len_eq_iff (w l : List Char) : l.take w.length = w ↔ w <+: l := by
  constructor
  · intro h
    exact ⟨l.drop w.length, by nth_rewrite 1 [← h]; exact List.take_append_drop _ _⟩
  · rintro ⟨r, rfl⟩
    exact List.take_left w r

/-- For an anchor-free pattern, `re.match` semantics is prefix-match
semantics: the subject matches exactly when the pattern fully matches
some prefix of it. -/
theorem reMatch_iff_fullMatch_of_take {p : Regex} (hp : anchorFree p = true)
    (l : List Char) :
    reMatch p l = true ↔ ∃ t, t <+: l ∧ fullMatch p t = true := by
  unfold reMatch
  constructor
  · intro h
    have hne : positions p l 0 ≠ [] := by
      intro hnil
      rw [hnil] at h
      simp at h
    obtain ⟨j, hj⟩ := List.exists_mem_of_ne_nil _ hne
    have hb := mem_positions_bound (Nat.zero_le _) hj
    refine ⟨l.take j, ⟨l.drop j, List.take_append_drop _ _⟩, ?_⟩
    unfold fullMatch
    have hlen : (l.take j).length = j := by simp; omega
    rw [decide_eq_true_eq, hlen]
    have := mem_positions_append (t := l.drop j) hp (i := 0) (j := j)
      (Nat.zero_le _) (le_of_eq hlen.symm)
    rw [List.take_append_drop] at this
    exact this.mpr hj
  · rintro ⟨u, ⟨r, rfl⟩, hf⟩
    unfold fullMatch at hf
    rw [decide_eq_true_eq] at hf
    have := (mem_positions_append (t := r) hp (i := 0) (j := u.length)
      (Nat.zero_le _) (Nat.le_refl _)).mp hf
    have hne : positions p (u ++ r) 0 ≠ [] := List.ne_nil_of_mem this
    simp [hne]

/-- An unanchored pattern `lit w` followed by `.*` matches (in `re.match`
position-0 semantics) exactly the strings with prefix `w`: the `.*` can
always match the empty run, so the rest of the subject (newlines
included) is unconstrained. -/
theorem reMatch_lit_star_dot (w l : List Char) :
    reMatch (.cat (.lit w) (.star .dot)) l = decide (w <+: l) := by
  by_cases hc : l.take w.length = w
  · have hw : w <+: l := (take_len_eq_iff w l).mp hc
    have hlit : positions (.lit w) l 0 = [w.length] := by simp [positions, hc]
    have hcat : positions (.cat (.lit w) (.star .dot)) l 0 =
        positions (.star .dot) l w.length ++ [] := by
      rw [show positions (.cat (.lit w) (.star .dot)) l 0 =
        ((positions (.lit w) l 0).map (fun j => positions (.star .dot) l j)).flatten from rfl]
      rw [hlit]
      rfl
    have hmem : w.length ∈ positions (.cat (.lit w) (.star .dot)) l 0 := by
      rw [hcat]
      exact List.mem_append.mpr (Or.inl (starStep_self _ _ _))
    have hne := List.ne_nil_of_mem hmem
    unfold reMatch
    simp [hne, hw]
  · have hnw : ¬ w <+: l := fun hp => hc ((take_len_eq_iff w l).mpr hp)
    have hemp : positions (.cat (.lit w) (.star .dot)) l 0 = [] := by
      simp [positions, hc]
    unfold reMatch
    rw [hemp]
    simp [hnw]

/-- A fully anchored pattern `^ lit w $` matches (in Python `re.match`
semantics) exactly the subject equal to `w`, or to `w` followed by one
final newline: `$` also matches just before a newline that ends the
string. -/
theorem reMatch_anchored_lit (w l : List Char) :
    reMatch (.cat .bol (.cat (.lit w) .eol)) l =
      decide (l = w ∨ l = w ++ ['\n']) := by
  have hstep : positions (.cat .bol (.cat (.lit w) .eol)) l 0 =
      ((positions (.lit w) l 0).map (fun j => positions .eol l j)).flatten ++ [] := rfl
  unfold reMatch
  rw [hstep, List.append_nil]
  by_cases hc : l.take w.length = w
  · have hlit : positions (.lit w) l 0 = [w.length] := by simp [positions, hc]
    rw [hlit]
    have hflat : (([w.length]).map (fun j => positions .eol l j)).flatten =
        positions .eol l w.length := by simp
    rw [hflat]
    by_cases hd : w.length = l.length ∨
        (w.length + 1 = l.length ∧ l.getD w.length '\n' = '\n')
    · have heol : positions .eol l w.length = [w.length] := by
        simp only [positions]
        rw [if_pos hd]
      have hlw : l = w ∨ l = w ++ ['\n'] := by
        rcases hd with hd | ⟨hlen, hch⟩
        · left
          rw [hd, List.take_length] at hc
          exact hc
        · right
          obtain ⟨r, rfl⟩ := (take_len_eq_iff w l).mp hc
          have hr1 : r.length = 1 := by
            rw [List.length_append] at hlen
            omega
          obtain ⟨c, rfl⟩ := List.length_eq_one.mp hr1
          have hcn : c = '\n' := by
            rw [List.getD_append_right w [c] '\n' w.length (Nat.le_refl _)] at hch
            simpa using hch
          rw [hcn]
      rw [heol]
      simp [hlw]
    · have heol : positions .eol l w.length = [] := by
        simp only [positions]
        rw [if_neg hd]
      have h1 : l ≠ w := by
        intro h
        exact hd (Or.inl (by rw [h]))
      have h2 : l ≠ w ++ ['\n'] := by
        intro h
        subst h
        refine hd (Or.inr ⟨by simp, ?_⟩)
        rw [List.getD_append_right w ['\n'] '\n' w.length (Nat.le_refl _)]
        simp
      rw [heol]
      simp [h1, h2]
  · have hlit : positions (.lit w) l 0 = [] := by simp [positions, hc]
    have h1 : l ≠ w := by
      intro h
      subst h
      simp at hc
    have h2 : l ≠ w ++ ['\n'] := by
      intro h
      subst h
      exact hc (List.take_left w ['\n'])
    rw [hlit]
    simp [h1, h2]

/-- A concrete task type with capability pattern "image/.*". -/
def ImageTask : TaskClass :=
  ⟨"ImageTask", some (.cat (.lit "image/".toList) (.star .dot)), true⟩

/-- A concrete task type with capability pattern "^image/jpeg$". -/
def JpegExactTask : TaskClass :=
  ⟨"JpegExactTask", some (.cat .bol (.cat (.lit "image/jpeg".toList) .eol)), true⟩

/-- A concrete task type that never declared its MAGIC_PATTERN. -/
def NoPatternTask : TaskClass := ⟨"NoPatternTask", none, true⟩

/-- A concrete task type with capability pattern "a.b", exercising the
single-character wildcard. -/
def PlainDotTask : TaskClass :=
  ⟨"PlainDotTask", some (.cat (.lit "a".toList) (.cat .dot (.lit "b".toList))), true⟩

/-- C4: `can_handle` uses pattern-match-from-start (prefix) semantics.
For every concrete type whose declared pattern is anchor-free, the call
reports a match exactly when the pattern fully matches some prefix of the
descriptor (not necessarily the whole string); in particular the
"image/.*" type handles exactly the descriptors with prefix "image/"
(so it handles "image/jpeg" and not "application/pdf"), and the
"^image/jpeg$" type handles exactly "image/jpeg" and "image/jpeg
"
(Python's `$` also matches just before a string-final newline), so not
"image/jpeg; charset=x". The "a.b" examples pin down that `.` does not
match a newline. -/
theorem c4_can_handle_match_from_start :
    (∀ (cls : TaskClass) (p : Regex) (s : String), cls.magicPattern = some p →
        anchorFree p = true →
        (can_handle cls s = .ok true ↔ ∃ t, t <+: s.toList ∧ fullMatch p t = true))
    ∧ (∀ s : String, can_handle ImageTask s = .ok (decide ("image/".toList <+: s.toList)))
    ∧ can_handle ImageTask "image/jpeg" = .ok true
    ∧ can_handle ImageTask "application/pdf" = .ok false
    ∧ (∀ s : String, can_handle JpegExactTask s =
        .ok (decide (s.toList = "image/jpeg".toList ∨
          s.toList = "image/jpeg".toList ++ ['\n'])))
    ∧ can_handle JpegExactTask "image/jpeg; charset=x" = .ok false
    ∧ can_handle JpegExactTask "image/jpeg" = .ok true
    ∧ can_handle JpegExactTask "image/jpeg\n" = .ok true
    ∧ can_handle PlainDotTask "axb" = .ok true
    ∧ can_handle PlainDotTask "a\nb" = .ok false := by
  refine ⟨?_, ?_, rfl, rfl, ?_, rfl, rfl, rfl, rfl, rfl⟩
  · intro cls p s hcls hp
    rw [can_handle, hcls]
    rw [show ((Except.ok (reMatch p s.toList) : Except PyError Bool) = .ok true ↔
        reMatch p s.toList = true) from by simp]
    exact reMatch_iff_fullMatch_of_take hp s.toList
  · intro s
    rw [can_handle]
    simp only [ImageTask]
    rw [reMatch_lit_star_dot]
  · intro s
    rw [can_handle]
    simp only [JpegExactTask]
    rw [reMatch_anchored_lit]

/-- Witness for C4 at a concrete type and descriptor: the general
prefix-semantics equivalence applied to the "image/.*" type on the
descriptor "image/jpegs", whose match consumes a strict prefix. -/
theorem c4_witness :
    can_handle ImageTask "image/jpegs" = .ok true ↔
      ∃ t, t <+: "image/jpegs".toList ∧
        fullMatch (.cat (.lit "image/".toList) (.star .dot)) t = true :=
  c4_can_handle_match_from_start.1 ImageTask _ "image/jpegs" rfl (by decide)

/-- C7: with MAGIC_PATTERN undeclared (None), `can_handle` raises - but
it raises AttributeError for `_name` (the classmethod reads `self._name`,
an instance-only attribute, while formatting the intended message), not
the configuration Exception describing the missing pattern. -/
theorem c7_missing_pattern_raises_attribute_error :
    ∀ s : String, can_handle NoPatternTask s = .error (.attributeError "_name") :=
  fun _ => rfl

/-- Two further concrete task types for registry scenarios. -/
def TaskA : TaskClass := ⟨"TaskA", some (.lit "a".toList), true⟩

/-- A second concrete task type, added to the universe later. -/
def TaskB : TaskClass := ⟨"TaskB", some (.lit "b".toList), true⟩

/-- C2: the code never populates `_tasks_cache`. With caching enabled, a
scanning call returns the cache global unchanged (still None), so a
subsequent call with `rebuild_cache=False` scans again and does find a
newly added concrete type - contrary to the claimed stale-cache
behaviour. -/
theorem c2_cache_never_populated :
    find_tasks true [TaskA] none false none = .ok ([TaskA], none)
    ∧ find_tasks true [TaskA, TaskB] none false none = .ok ([TaskA, TaskB], none) :=
  ⟨rfl, rfl⟩

/-- C9: on a cache hit (caching enabled, no rebuild, cache populated),
`find_tasks` returns the complete cached set whatever `name` is - the
name filter is not applied on this path. -/
theorem c9_cache_hit_ignores_name :
    ∀ (reg : List TaskClass) (name : Option Value) (c : List TaskClass),
      find_tasks true reg name false (some c) = .ok (c, some c) :=
  fun _ _ _ => rfl

/-- C3: `start` sets `completed` to false unconditionally, invokes the
work routine, and on normal return sets `completed` to true and returns
the instance; an exception from the work routine propagates out of
`start` uncaught. A freshly constructed task has `completed = false` and
`get_result() = None`; after a successful `start`, `get_result()` is the
result the work routine stored; the base `run` raises without touching
state, so after that failing `start` the instance still has
`completed = false`. -/
theorem c3_start_lifecycle :
    (∀ (n : String) (p pr : Value),
        (BaseTask.init n p pr)._done = false ∧ get_result (BaseTask.init n p pr) = Value.null)
    ∧ (∀ (run : RunMethod) (t t1 : BaseTask), run (set_done t false) = .ok t1 →
        start run t = .ok (set_done t1 true) ∧ (set_done t1 true)._done = true ∧
          get_result (set_done t1 true) = t1._result)
    ∧ (∀ (run : RunMethod) (t u : BaseTask) (e : PyError),
        run (set_done t false) = .error (e, u) → start run t = .error (e, u))
    ∧ (∀ t : BaseTask, start BaseTask.run t =
        .error (.notImplementedError ("Attempted to call virtual method `run`, " ++
          "this method must be overridden"), set_done t false)
        ∧ (set_done t false)._done = false) := by
  refine ⟨fun n p pr => ⟨rfl, rfl⟩, ?_, ?_, fun t => ⟨rfl, rfl⟩⟩
  · intro run t t1 h
    refine ⟨?_, rfl, rfl⟩
    simp only [start, h]
  · intro run t u e h
    simp only [start, h]

/-- A work routine that stores a result and returns normally. -/
def demoOkRun : RunMethod := fun u => .ok (set_result u (Value.int 7))

/-- A work routine that raises without touching the state. -/
def demoFailRun : RunMethod := fun u => .error (.exception "boom", u)

/-- A freshly constructed task instance used in concrete scenarios. -/
def demoTask : BaseTask := BaseTask.init "DemoTask" (Value.str "/tmp/x") PRIO_NORMAL

/-- Witness for C3: the lifecycle contract applied to a concrete task
with a succeeding run and with a failing run. -/
theorem c3_witness :
    start demoOkRun demoTask = .ok (set_done (set_result (set_done demoTask false) (Value.int 7)) true)
    ∧ start demoFailRun demoTask = .error (.exception "boom", set_done demoTask false) :=
  ⟨(c3_start_lifecycle.2.1 demoOkRun demoTask _ rfl).1,
   c3_start_lifecycle.2.2.1 demoFailRun demoTask _ _ rfl⟩

/-- C6: when discovery-by-name takes the scan path (caching disabled, or
rebuild requested, or empty cache) and the universe holds two or more
concrete task types named `x`, `find_tasks` raises the fatal assertion;
when the scan finds none, it returns the empty list and does not raise. -/
theorem c6_ambiguity_and_not_found :
    ∀ (cfg rebuild : Bool) (reg : List TaskClass) (cache : Option (List TaskClass)) (x : String),
      (cfg = false ∨ rebuild = true ∨ cache = none) →
      (2 ≤ (scan_tasks reg (some (Value.str x))).length →
        find_tasks cfg reg (some (Value.str x)) rebuild cache =
          .error (.assertionError ("Found more than one task named " ++ pyRepr (Value.str x))))
      ∧ (scan_tasks reg (some (Value.str x)) = [] →
        find_tasks cfg reg (some (Value.str x)) rebuild cache = .ok ([], cache)) := by
  intro cfg rebuild reg cache x hpath
  have hscan : find_tasks cfg reg (some (Value.str x)) rebuild cache =
      find_tasks_scan reg (some (Value.str x)) cache := by
    rcases hpath with rfl | rfl | rfl
    · simp [find_tasks]
    · simp [find_tasks]
    · cases cfg <;> cases rebuild <;> simp [find_tasks]
  constructor
  · intro h2
    rw [hscan]
    simp only [find_tasks_scan]
    rw [if_neg (by omega)]
  · intro h0
    rw [hscan]
    simp [find_tasks_scan, h0]

/-- Two distinct concrete task types sharing the identifier "Dup". -/
def DupTask1 : TaskClass := ⟨"Dup", some (.lit "a".toList), true⟩

/-- The second task type named "Dup". -/
def DupTask2 : TaskClass := ⟨"Dup", some (.lit "b".toList), true⟩

/-- Witness for C6: with two types named "Dup" in the universe the scan
asserts; with no type named "Missing" it returns the empty list. -/
theorem c6_witness :
    find_tasks false [DupTask1, DupTask2] (some (Value.str "Dup")) false none =
      .error (.assertionError ("Found more than one task named " ++ pyRepr (Value.str "Dup")))
    ∧ find_tasks false [DupTask1, DupTask2] (some (Value.str "Missing")) false none =
      .ok ([], none) :=
  ⟨(c6_ambiguity_and_not_found false false [DupTask1, DupTask2] none "Dup"
      (Or.inl rfl)).1 (by decide),
   (c6_ambiguity_and_not_found false false [DupTask1, DupTask2] none "Missing"
      (Or.inl rfl)).2 (by decide)⟩

/-- Classes whose `can_handle` reports no match are stepped over by the
capability loop without affecting the accumulator. -/
theorem find_by_capability_loop_skip (ft : String) (fo : Bool)
    (pre rest : List TaskClass) (acc : List String)
    (h : ∀ u ∈ pre, can_handle u ft = .ok false) :
    find_by_capability_loop ft fo (pre ++ rest) acc =
      find_by_capability_loop ft fo rest acc := by
  induction pre with
  | nil => rfl
  | cons u pre ih =>
    have hu := h u (List.mem_cons_self u pre)
    rw [List.cons_append]
    simp only [find_by_capability_loop, hu]
    exact ih (fun v hv => h v (List.mem_cons_of_mem _ hv))

/-- With `first_only` set, a matching class at the head of the remaining
list ends the loop at once with that class's name. -/
theorem find_by_capability_loop_first (ft : String) (t : TaskClass)
    (rest : List TaskClass) (acc : List String)
    (h : can_handle t ft = .ok true) :
    find_by_capability_loop ft true (t :: rest) acc = .ok (.inl t.name) := by
  simp [find_by_capability_loop, h]

/-- With `first_only` unset and every `can_handle` call returning `m`,
the loop accumulates the names of the matching classes in order. -/
theorem find_by_capability_loop_all (ft : String) (m : TaskClass → Bool) :
    ∀ (ts : List TaskClass) (acc : List String),
      (∀ u ∈ ts, can_handle u ft = .ok (m u)) →
      find_by_capability_loop ft false ts acc =
        .ok (.inr (acc ++ (ts.filter m).map (fun c => c.name))) := by
  intro ts
  induction ts with
  | nil => intro acc _; simp [find_by_capability_loop]
  | cons u rest ih =>
    intro acc h
    have hu := h u (List.mem_cons_self u rest)
    have hrest := fun v hv => h v (List.mem_cons_of_mem _ hv)
    by_cases hm : m u
    · rw [hm] at hu
      simp only [find_by_capability_loop, hu]
      rw [ih (acc ++ [u.name]) hrest]
      simp [List.filter_cons, hm]
    · rw [Bool.not_eq_true] at hm
      rw [hm] at hu
      simp only [find_by_capability_loop, hu]
      rw [ih acc hrest]
      simp [List.filter_cons, hm]

/-- C5: `find_tasks_by_filetype` with `first_only` returns the name of
the first discovered class whose `can_handle` matches, never evaluating
`can_handle` on later classes; without `first_only` it returns the names
of all matching classes in discovery order; and with no match at all it
returns the empty list instead of raising. -/
theorem c5_find_by_capability :
    (∀ (cfg : Bool) (reg : List TaskClass) (cache cache2 : Option (List TaskClass))
        (ft : String) (pre post : List TaskClass) (t : TaskClass),
        find_tasks cfg reg none false cache = .ok (pre ++ t :: post, cache2) →
        (∀ u ∈ pre, can_handle u ft = .ok false) →
        can_handle t ft = .ok true →
        find_tasks_by_filetype cfg reg cache ft true = .ok (.inl t.name))
    ∧ (∀ (cfg : Bool) (reg : List TaskClass) (cache cache2 : Option (List TaskClass))
        (ft : String) (ts : List TaskClass) (m : TaskClass → Bool),
        find_tasks cfg reg none false cache = .ok (ts, cache2) →
        (∀ u ∈ ts, can_handle u ft = .ok (m u)) →
        find_tasks_by_filetype cfg reg cache ft false =
          .ok (.inr ((ts.filter m).map (fun c => c.name))))
    ∧ (∀ (cfg : Bool) (reg : List TaskClass) (cache cache2 : Option (List TaskClass))
        (ft : String) (ts : List TaskClass) (fo : Bool),
        find_tasks cfg reg none false cache = .ok (ts, cache2) →
        (∀ u ∈ ts, can_handle u ft = .ok false) →
        find_tasks_by_filetype cfg reg cache ft fo = .ok (.inr [])) := by
  refine ⟨?_, ?_, ?_⟩
  · intro cfg reg cache cache2 ft pre post t hf hpre ht
    simp only [find_tasks_by_filetype, hf]
    rw [find_by_capability_loop_skip ft true pre (t :: post) [] hpre]
    exact find_by_capability_loop_first ft t post [] ht
  · intro cfg reg cache cache2 ft ts m hf hm
    simp only [find_tasks_by_filetype, hf]
    rw [find_by_capability_loop_all ft m ts [] hm]
    simp
  · intro cfg reg cache cache2 ft ts fo hf hm
    simp only [find_tasks_by_filetype, hf]
    rw [show ts = ts ++ [] by simp]
    rw [find_by_capability_loop_skip ft fo ts [] [] (by simpa using hm)]
    rfl

/-- Witness for C5: with the universe [ImageTask, NoPatternTask] (the
second would raise if its `can_handle` were evaluated), the first-only
query short-circuits at ImageTask; with [ImageTask, JpegExactTask] and
descriptor "image/jpeg" (both match) the exhaustive query lists both
names in discovery order; and with no matching class the result is the
empty list. -/
theorem c5_witness :
    find_tasks_by_filetype false [ImageTask, NoPatternTask] none "image/png" true =
      .ok (.inl "ImageTask")
    ∧ find_tasks_by_filetype false [ImageTask, JpegExactTask] none "image/jpeg" false =
      .ok (.inr ["ImageTask", "JpegExactTask"])
    ∧ find_tasks_by_filetype false [JpegExactTask] none "text/plain" true =
      .ok (.inr []) := by
  refine ⟨?_, ?_, ?_⟩
  · exact c5_find_by_capability.1 false [ImageTask, NoPatternTask] none none
      "image/png" [] [NoPatternTask] ImageTask rfl (by intro u hu; simp at hu) rfl
  · have := c5_find_by_capability.2.1 false [ImageTask, JpegExactTask] none none
      "image/jpeg" [ImageTask, JpegExactTask] (fun _ => true) rfl ?_
    · simpa using this
    · intro u hu
      simp only [List.mem_cons, List.not_mem_nil, or_false] at hu
      rcases hu with rfl | rfl
      · rfl
      · rfl
  · refine c5_find_by_capability.2.2 false [JpegExactTask] none none
      "text/plain" [JpegExactTask] true rfl ?_
    intro u hu
    simp only [List.mem_cons, List.not_mem_nil, or_false] at hu
    subst hu
    rfl

/-- C1: for a completed task instance, `from_dict(to_dict(t))`
reconstructs an instance with the same `path`, `completed`, `priority`
and `result`, while `next_tasks` comes back empty whatever it was,
provided the registry lookup on the instance's name finds exactly one
class. -/
theorem c1_roundtrip :
    ∀ (cfg : Bool) (reg : List TaskClass) (cache cache2 : Option (List TaskClass))
      (t : BaseTask) (cls : TaskClass),
      t._done = true →
      find_tasks cfg reg (some (Value.str t._name)) false cache = .ok ([cls], cache2) →
      ∃ t2, from_dict cfg reg cache (to_dict t) = .ok t2 ∧
        t2._path = t._path ∧ t2._done = t._done ∧ t2._priority = t._priority ∧
        t2._result = t._result ∧ t2._next_tasks = [] := by
  intro cfg reg cache cache2 t cls hd hf
  obtain ⟨n, p0, d, r, pr, nx⟩ := t
  simp only at hd hf ⊢
  subst hd
  refine ⟨⟨cls.name, p0, true, r, pr, []⟩, ?_, rfl, rfl, rfl, rfl, rfl⟩
  have h1 : getItem (to_dict ⟨n, p0, true, r, pr, nx⟩) "name" = .ok (.str n) := rfl
  simp only [from_dict, h1, hf]
  rfl

/-- A concrete completed instance of ImageTask, with a result and a
non-empty follow-up queue. -/
def roundTask : BaseTask :=
  ⟨"ImageTask", Value.str "/tmp/f", true, Value.str "digest", Value.int 10,
   [Value.dict []]⟩

/-- Witness for C1: the round trip applied to `roundTask` against a
one-class registry. -/
theorem c1_witness :
    ∃ t2, from_dict false [ImageTask] none (to_dict roundTask) = .ok t2 ∧
      t2._path = roundTask._path ∧ t2._done = roundTask._done ∧
      t2._priority = roundTask._priority ∧ t2._result = roundTask._result ∧
      t2._next_tasks = [] :=
  c1_roundtrip false [ImageTask] none none roundTask ImageTask rfl rfl

/-- Test for a Python bool, as `type(value) != bool` tests in the `done`
setter. -/
def Value.isBool : Value → Bool
  | .bool _ => true
  | _ => false

/-- C10: `from_dict` routes the reconstructed completion flag through the
type-checked `done` setter: a payload whose "completed" entry is present
but not a bool makes reconstruction raise the type-contract error, and a
payload with no "completed" entry reconstructs with `completed = false`. -/
theorem c10_from_dict_completed :
    ∀ (cfg : Bool) (reg : List TaskClass) (cache cache2 : Option (List TaskClass))
      (kvs : List (String × Value)) (nv pv : Value) (cls : TaskClass),
      dictLookup kvs "name" = some nv →
      find_tasks cfg reg (some nv) false cache = .ok ([cls], cache2) →
      dictLookup kvs "path" = some pv →
      dictLookup kvs "args" = none →
      (∀ v : Value, dictLookup kvs "completed" = some v → Value.isBool v = false →
        from_dict cfg reg cache (Value.dict kvs) =
          .error (.exception ("Value for " ++ cls.name ++ ".done must be a boolean")))
      ∧ (dictLookup kvs "completed" = none →
        ∃ t2, from_dict cfg reg cache (Value.dict kvs) = .ok t2 ∧ t2._done = false) := by
  intro cfg reg cache cache2 kvs nv pv cls hname hf hpath hargs
  constructor
  · intro v hv hnb
    simp only [from_dict, getItem, hname, hf, hpath, getDefault, hargs, hv]
    cases v with
    | bool b => simp [Value.isBool] at hnb
    | null => rfl
    | int n => rfl
    | str s => rfl
    | list xs => rfl
    | dict kvs2 => rfl
  · intro hnone
    simp only [from_dict, getItem, hname, hf, hpath, getDefault, hargs, hnone]
    exact ⟨_, rfl, rfl⟩

/-- Witness for C10: a payload with "completed": 1 fails with the
type-contract error; the same payload without "completed" reconstructs
with `completed = false`. -/
theorem c10_witness :
    from_dict false [ImageTask] none
        (Value.dict [("name", Value.str "ImageTask"), ("path", Value.str "/p"),
          ("completed", Value.int 1)]) =
      .error (.exception "Value for ImageTask.done must be a boolean")
    ∧ ∃ t2, from_dict false [ImageTask] none
        (Value.dict [("name", Value.str "ImageTask"), ("path", Value.str "/p")]) =
          .ok t2 ∧ t2._done = false :=
  ⟨(c10_from_dict_completed false [ImageTask] none none
      [("name", Value.str "ImageTask"), ("path", Value.str "/p"),
        ("completed", Value.int 1)]
      (Value.str "ImageTask") (Value.str "/p") ImageTask rfl rfl rfl rfl).1
      (Value.int 1) rfl rfl,
   (c10_from_dict_completed false [ImageTask] none none
      [("name", Value.str "ImageTask"), ("path", Value.str "/p")]
      (Value.str "ImageTask") (Value.str "/p") ImageTask rfl rfl rfl rfl).2 rfl⟩

/-- A fresh instance used for the follow-up queue scenarios. -/
def C8Task : BaseTask := BaseTask.init "SampleTask" (Value.str "/tmp/f") PRIO_NORMAL

set_option maxRecDepth 4096 in
/-- C8 counterexample: the same follow-up task queued once in dict form
and once in already-serialized JSON-string form comes back as two
different strings - `get_next_tasks` re-applies `json.dumps` uniformly,
so a string item is re-encoded as a JSON string literal instead of being
passed through in its canonical form. -/
theorem c8_counterexample :
    get_next_tasks (add_next_task (add_next_task C8Task (to_dict C8Task))
        (Value.str (to_json C8Task)))
      = [to_json C8Task, dumps (Value.str (to_json C8Task))]
    ∧ to_json C8Task ≠ dumps (Value.str (to_json C8Task)) :=
  ⟨rfl, by decide⟩

/-- C8 (amended): `get_next_tasks` returns `json.dumps` of each queued
item in the order added; the output is canonical for dict items but
depends on the form items were added in, since string items are
re-encoded as JSON string literals. -/
theorem c8_next_tasks_dump :
    (∀ (t : BaseTask) (v : Value),
      get_next_tasks (add_next_task t v) = get_next_tasks t ++ [dumps v])
    ∧ (∀ (t : BaseTask) (items : List Value),
      get_next_tasks (items.foldl add_next_task t) = (t._next_tasks ++ items).map dumps) := by
  constructor
  · intro t v
    simp [get_next_tasks, add_next_task]
  · intro t items
    induction items generalizing t with
    | nil => simp [get_next_tasks]
    | cons x xs ih =>
      simp only [List.foldl_cons, ih, add_next_task]
      simp
